import Mathlib

/-!
# Verification of the Crewhu-ManageUpdate core

Shallow embedding of the text-extraction and reconciliation engine of the
Crewhu/ConnectWise synchronisation scripts: the notification-email extractor
(reformatJSON.py), the ticket-set loader and survey-link resolver
(GET&POST_Links.py), the rating write path (POST_Ratings.py) and the
automation-note recognition predicate (POST_Notes_Internal.py).

Strings are modelled as `List Char`; the ASCII fragments of Python's
`str.strip`, `str.lower`, `str.upper`, `str.isdigit` and `str.splitlines`
are reproduced, which covers every character occurring in the data handled
by the scripts.
-/

namespace Crewhu

/-! ## Python string primitives (ASCII fragment) -/

/-- Python whitespace as tested by `str.strip` / `\s` (ASCII subset). -/
def wsB (c : Char) : Bool :=
  c == ' ' || c == '\t' || c == '\n' || c == '\r' || c == '\x0b' || c == '\x0c'

def lowerL (s : List Char) : List Char := s.map Char.toLower

def upperL (s : List Char) : List Char := s.map Char.toUpper

/-- `str.rstrip` with respect to a predicate. -/
def rstripBy (p : Char → Bool) (s : List Char) : List Char :=
  (s.reverse.dropWhile p).reverse

/-- Python `str.strip()` (trim whitespace at both ends). -/
def stripWs (s : List Char) : List Char := (rstripBy wsB s).dropWhile wsB

/-- Python `str.rstrip('.')`: remove every trailing period. -/
def rstripPeriods (s : List Char) : List Char := rstripBy (· == '.') s

/-- Python `str.rstrip(">.")`: remove every trailing `>` or `.`. -/
def rstripAngleDot (s : List Char) : List Char :=
  rstripBy (fun c => c == '>' || c == '.') s

/-- Does `s` start with pattern `u` (case sensitive)? -/
def startsWithL : List Char → List Char → Bool
  | [], _ => true
  | _ :: _, [] => false
  | p :: pt, c :: ct => (p == c) && startsWithL pt ct

/-- Case-insensitive variant of `startsWithL` (Python `re.IGNORECASE` literals). -/
def ciStartsWith : List Char → List Char → Bool
  | [], _ => true
  | _ :: _, [] => false
  | p :: pt, c :: ct => (p.toLower == c.toLower) && ciStartsWith pt ct

/-- Python `u in s` substring test. -/
def containsSub : List Char → List Char → Bool
  | [], u => startsWithL u []
  | c :: t, u => startsWithL u (c :: t) || containsSub t u

/-- Digit string to the integer Python's `int` returns on it. -/
def toNatL (s : List Char) : Nat :=
  s.foldl (fun n c => n * 10 + (c.toNat - '0'.toNat)) 0

/-- Python `str.splitlines` over the ASCII line terminators
`\n`, `\r`, `\r\n`, `\x0b`, `\x0c` (no trailing empty line). -/
def splitlinesAux (cur : List Char) : List Char → List (List Char)
  | [] => if cur.isEmpty then [] else [cur.reverse]
  | '\r' :: '\n' :: t => cur.reverse :: splitlinesAux [] t
  | c :: t =>
    if c == '\n' || c == '\r' || c == '\x0b' || c == '\x0c' then
      cur.reverse :: splitlinesAux [] t
    else
      splitlinesAux (c :: cur) t

def splitlinesL (s : List Char) : List (List Char) := splitlinesAux [] s

/-! ## A small backtracking regex engine

The three patterns of reformatJSON.py are sequences of: case-insensitive
literals, lazy dot-star captures `(?P<g>.*?)`, a greedy `\d+` capture and
a greedy `\s*`.  The engine below reproduces Python's backtracking order
for exactly this token language: a lazy star tries the shortest extent
first, `\d+` and `\s*` try the longest first, and `re.search` tries start
positions left to right.  Captured groups are an association list from
group number to captured characters; on an accepted path each group is
bound exactly once. -/

inductive Tok where
  | lit : List Char → Tok
  | lazyStar : Nat → Bool → Tok
  | digitsPlus : Nat → Tok
  | wsStar : Tok
deriving Repr

abbrev Groups := List (Nat × List Char)

/-- Continuation states of the matcher: the plain token list, a lazy-star
consuming loop, a `\d+` retry loop and a `\s*` retry loop. -/
inductive Job where
  | main (toks : List Tok) (s : List Char)
  | lazy (g : Nat) (dotall : Bool) (rest : List Tok) (acc s : List Char)
  | digits (g : Nat) (rest : List Tok) (ds : List Char) (k : Nat) (tail : List Char)
  | wsp (rest : List Tok) (ws : List Char) (k : Nat) (tail : List Char)

/-- One anchored match attempt, driven by a fuel counter.  Each recursive
step consumes one unit; the fuel passed by `reSearch` exceeds the work the
fixed patterns perform on the inputs considered. -/
def reRun : Nat → Job → Groups → Option Groups
  | 0, _, _ => none
  | Nat.succ f, job, gs =>
    match job with
    | .main toks s =>
      match toks with
      | [] => some gs
      | .lit l :: rest =>
        if ciStartsWith l s then reRun f (.main rest (s.drop l.length)) gs else none
      | .lazyStar g dotall :: rest => reRun f (.lazy g dotall rest [] s) gs
      | .digitsPlus g :: rest =>
        let ds := s.takeWhile Char.isDigit
        reRun f (.digits g rest ds ds.length (s.drop ds.length)) gs
      | .wsStar :: rest =>
        let ws := s.takeWhile wsB
        reRun f (.wsp rest ws ws.length (s.drop ws.length)) gs
    | .lazy g dotall rest acc s =>
      match reRun f (.main rest s) ((g, acc.reverse) :: gs) with
      | some r => some r
      | none =>
        match s with
        | [] => none
        | c :: s' =>
          if dotall || !(c == '\n') then reRun f (.lazy g dotall rest (c :: acc) s') gs
          else none
    | .digits g rest ds k tail =>
      match k with
      | 0 => none
      | Nat.succ k' =>
        match reRun f (.main rest (ds.drop (k' + 1) ++ tail)) ((g, ds.take (k' + 1)) :: gs) with
        | some r => some r
        | none => reRun f (.digits g rest ds k' tail) gs
    | .wsp rest ws k tail =>
      match reRun f (.main rest (ws.drop k ++ tail)) gs with
      | some r => some r
      | none =>
        match k with
        | 0 => none
        | Nat.succ k' => reRun f (.wsp rest ws k' tail) gs

/-- Fuel bound for a search over `s`; far above the bounded backtracking
the fixed patterns perform on the inputs considered here. -/
def reFuel (s : List Char) : Nat := (s.length + 9) ^ 6

def reSearchAux (toks : List Tok) (fuel : Nat) : List Char → Option Groups
  | [] => reRun fuel (.main toks []) []
  | s@(_ :: t) =>
    match reRun fuel (.main toks s) [] with
    | some gs => some gs
    | none => reSearchAux toks fuel t

/-- Python `pattern.search(s)`: leftmost match, groups of the first
backtracking success. -/
def reSearch (toks : List Tok) (s : List Char) : Option Groups :=
  reSearchAux toks (reFuel s) s

/-- Group lookup (each group is bound once on the accepted path). -/
def getG (g : Nat) (gs : Groups) : List Char :=
  match gs.find? (fun p => p.1 == g) with
  | some p => p.2
  | none => []

/-! ## reformatJSON.py: patterns and the extractor

Group numbers: 0 customer, 1 company, 2 rating, 3 employee, 4 categories,
5 ticket_id, 6 ticket_desc. -/

/-- REGEX_REVIEW (re.IGNORECASE): customer `.*?`, " from ", company `.*?`,
" gave a ", rating `.*?`, " rating to ", employee `.*?`, " for ",
categories `.*?`, " on ticket# ", ticket_id `\d+`, `\s*`, "(",
ticket_desc `.*?`, ")". -/
def REGEX_REVIEW : List Tok :=
  [ .lazyStar 0 false, .lit " from ".data
  , .lazyStar 1 false, .lit " gave a ".data
  , .lazyStar 2 false, .lit " rating to ".data
  , .lazyStar 3 false, .lit " for ".data
  , .lazyStar 4 false, .lit " on ticket# ".data
  , .digitsPlus 5, .wsStar, .lit "(".data
  , .lazyStar 6 false, .lit ")".data ]

/-- REGEX_WOOHOO (re.IGNORECASE): as in the source the employee group is a
trailing `(?P<employee>.*?)` with nothing after it. -/
def REGEX_WOOHOO : List Tok :=
  [ .lazyStar 0 false, .lit " from ".data
  , .lazyStar 1 false, .lit " gave a ".data
  , .lazyStar 2 false, .lit " Rating for ".data
  , .lazyStar 4 false, .lit " on ticket# ".data
  , .digitsPlus 5, .wsStar, .lit "(".data
  , .lazyStar 6 false, .lit ") to your colleague ".data
  , .lazyStar 3 false ]

/-- REGEX_FEEDBACK, implemented directly:
`Customer feedback:\s*(?:"(?P<quote>.*?)"|(?P<none>No feedback provided))`
with IGNORECASE and DOTALL.  `some (some q)` is a quote capture,
`some none` the literal-sentinel alternative, `none` no match.
Backtracking over the greedy `\s*` cannot succeed because neither
alternative starts with a whitespace character, so only the maximal
whitespace run is tried. -/
def quoteChar : Char := Char.ofNat 34

def upToQuote : List Char → Option (List Char)
  | [] => none
  | c :: t => if c == quoteChar then some [] else (upToQuote t).map (c :: ·)

def FBLIT : List Char := "Customer feedback:".data

def NOFB : List Char := "No feedback provided".data

def fbTryAt (s : List Char) : Option (Option (List Char)) :=
  if ciStartsWith FBLIT s then
    let r := (s.drop FBLIT.length).dropWhile wsB
    match r with
    | c :: r' =>
      if c == quoteChar then
        match upToQuote r' with
        | some q => some (some q)
        | none => if ciStartsWith NOFB r then some none else none
      else if ciStartsWith NOFB r then some none else none
    | [] => none
  else none

def fbSearch : List Char → Option (Option (List Char))
  | [] => fbTryAt []
  | s@(_ :: t) =>
    match fbTryAt s with
    | some x => some x
    | none => fbSearch t

structure Email where
  Subject : List Char
  FullBody : List Char

structure SurveyRecord where
  ticket_number : Nat
  summary : List Char
  customer_feedback : List Char
deriving DecidableEq, Repr

/-- `[line.strip() for line in full_body.splitlines() if line.strip()]`. -/
def cleanLines (body : List Char) : List (List Char) :=
  ((splitlinesL body).map stripWs).filter (fun l => !l.isEmpty)

/-- Line scan: REGEX_REVIEW first, then REGEX_WOOHOO, stop at the first
line with a match. -/
def firstLineMatch : List (List Char) → Option Groups
  | [] => none
  | l :: ls =>
    match reSearch REGEX_REVIEW l with
    | some gd => some gd
    | none =>
      match reSearch REGEX_WOOHOO l with
      | some gd => some gd
      | none => firstLineMatch ls

def NOFB_SENT : List Char := "No feedback provided.".data

/-- Cleanup and summary-sentence construction on a successful line match
(lines 78-109 of reformatJSON.py).  The empty-group test on the quote
capture models Python's truthiness check `if fb_match.group('quote'):`. -/
def buildRecord (gd : Groups) (fullBody : List Char) : SurveyRecord :=
  let ticket_id_str := getG 5 gd
  let customer := stripWs (getG 0 gd)
  let company := stripWs (getG 1 gd)
  let rating := stripWs (getG 2 gd)
  let employee := rstripPeriods (stripWs (getG 3 gd))
  let categories := stripWs (getG 4 gd)
  let ticket_desc := stripWs (getG 6 gd)
  let feedback :=
    match fbSearch fullBody with
    | some (some q) => if q.isEmpty then NOFB_SENT else stripWs q
    | some none => NOFB_SENT
    | none => NOFB_SENT
  { ticket_number := toNatL ticket_id_str
  , summary :=
      customer ++ " from ".data ++ company ++ " just gave a ".data ++ rating
        ++ " rating to ".data ++ employee ++ " for ".data ++ categories
        ++ " on ticket# ".data ++ ticket_id_str ++ " (".data ++ ticket_desc ++ ").".data
  , customer_feedback := feedback }

/-- extract_survey_from_email: subject gate, line scan, record construction. -/
def extract_survey_from_email (e : Email) : Option SurveyRecord :=
  if containsSub (lowerL e.Subject) "rating".data then
    match firstLineMatch (cleanLines e.FullBody) with
    | some gd => some (buildRecord gd e.FullBody)
    | none => none
  else none

/-! ## reformatJSON.py main: the survey index (dict keyed by ticket number) -/

/-- Python-dict insert-or-overwrite on an association list (first insertion
keeps its position, later writes replace the stored record). -/
def insertOrReplace (k : Nat) (v : SurveyRecord) :
    List (Nat × SurveyRecord) → List (Nat × SurveyRecord)
  | [] => [(k, v)]
  | (k', v') :: rest =>
    if k' == k then (k, v) :: rest else (k', v') :: insertOrReplace k v rest

def indexStep (acc : List (Nat × SurveyRecord)) (e : Email) : List (Nat × SurveyRecord) :=
  match extract_survey_from_email e with
  | some r => insertOrReplace r.ticket_number r acc
  | none => acc

/-- The `surveys` dict built by `main` over the email list, in input order. -/
def buildIndex (emails : List Email) : List (Nat × SurveyRecord) :=
  emails.foldl indexStep []

def lookupTicket (k : Nat) (m : List (Nat × SurveyRecord)) : Option SurveyRecord :=
  (m.find? (fun p => p.1 == k)).map (·.2)

def keysOf (m : List (Nat × SurveyRecord)) : List Nat := m.map (·.1)

/-! ## GET&POST_Links.py, step 1: load_ticket_numbers_from_csv

A CSV row is modelled as the association list the `csv.DictReader`
produces (column name to cell text); file decoding and dialect sniffing
are collaborator concerns outside the loader's contract. -/

abbrev Row := List (List Char × List Char)

def possible_ticket_keys : List (List Char) :=
  ["Ticket#".data, "Ticket".data, "Ticket #".data, "ticket".data, "ticket#".data]

def rowGet (row : Row) (k : List Char) : Option (List Char) :=
  (row.find? (fun p => decide (p.1 = k))).map (·.2)

/-- `for key in possible_ticket_keys: if key in row and row[key]` — the
first key that is present with a truthy (non-empty) value wins. -/
def firstKeyVal : List (List Char) → Row → Option (List Char)
  | [], _ => none
  | k :: ks, row =>
    match rowGet row k with
    | some v => if v.isEmpty then firstKeyVal ks row else some v
    | none => firstKeyVal ks row

/-- Python `s.split(".")[0]`. -/
def takeBeforeDot (s : List Char) : List Char := s.takeWhile (· != '.')

/-- Python's set, modelled as a duplicate-free list in first-insertion
order (a deterministic stand-in for the set's iteration order; the claims
settled below do not depend on the order of numerically-equal keys). -/
def ticketSetStep (acc : List (List Char)) (row : Row) : List (List Char) :=
  match firstKeyVal possible_ticket_keys row with
  | none => acc
  | some v0 =>
    let v := takeBeforeDot (stripWs v0)
    if !v.isEmpty && v.all Char.isDigit && !(decide (v ∈ acc)) then acc ++ [v] else acc

def collectTickets (rows : List Row) : List (List Char) :=
  rows.foldl ticketSetStep []

/-- `sorted(ticket_numbers, key=int)`. -/
def keyLe (a b : List Char) : Prop := toNatL a ≤ toNatL b

instance : DecidableRel keyLe := fun a b => Nat.decLe (toNatL a) (toNatL b)

instance : IsTotal (List Char) keyLe := ⟨fun a b => Nat.le_total (toNatL a) (toNatL b)⟩

instance : IsTrans (List Char) keyLe := ⟨fun _ _ _ => Nat.le_trans⟩

def load_ticket_numbers_from_csv (rows : List Row) : List (List Char) :=
  List.insertionSort keyLe (collectTickets rows)

/-- Numeric strict ascent, the order the claim asserts of the output. -/
def keyLt (a b : List Char) : Prop := toNatL a < toNatL b

instance : DecidableRel keyLt := fun a b => Nat.decLt (toNatL a) (toNatL b)

/-! ## GET&POST_Links.py, step 3: get_survey_link_for_ticket -/

structure Notif where
  FullBody : List Char

def SURVEY_LIT : List Char := "https://web.crewhu.com/#/managesurvey/form/".data

def apos : Char := Char.ofNat 39

/-- The character class `[^\s<>"']` of SURVEY_LINK_PATTERN. -/
def linkCharB (c : Char) : Bool :=
  !(wsB c || c == '<' || c == '>' || c == quoteChar || c == apos)

/-- `SURVEY_LINK_PATTERN.search`: leftmost occurrence of the fixed URL
prefix followed by a maximal non-empty run of link characters; returns
`group(0)`. -/
def findLinkFrom : List Char → Option (List Char)
  | [] => none
  | s@(_ :: t) =>
    if startsWithL SURVEY_LIT s then
      let tok := (s.drop SURVEY_LIT.length).takeWhile linkCharB
      if tok.isEmpty then findLinkFrom t else some (SURVEY_LIT ++ tok)
    else findLinkFrom t

def markerOf (ticketNumber : List Char) : List Char := "ticket# ".data ++ ticketNumber

/-- Scan notifications in order; a notification whose body holds the
marker but no link does not stop the scan. -/
def get_survey_link_for_ticket (tn : List Char) : List Notif → Option (List Char)
  | [] => none
  | n :: rest =>
    if containsSub n.FullBody (markerOf tn) then
      match findLinkFrom n.FullBody with
      | some link => some (rstripAngleDot link)
      | none => get_survey_link_for_ticket tn rest
    else get_survey_link_for_ticket tn rest

/-! ## GET&POST_Links.py, step 4: update_ticket_crewhu_field -/

structure CWField where
  caption : List Char
  value : List Char
deriving DecidableEq, Repr

def isCrewhuCandidate (f : CWField) : Bool :=
  decide (lowerL (stripWs f.caption) = "latest crewhu survey".data)
    || containsSub (lowerL f.caption) "crewhu".data

/-- `candidates[-1]` over the filtered customFields. -/
def selectedCrewhuField (fields : List CWField) : Option CWField :=
  (fields.filter isCrewhuCandidate).getLast?

structure PatchCall where
  idx : Nat
  value : List Char
deriving DecidableEq, Repr

/-- The pure content of update_ticket_crewhu_field: `getResp` is the GET
response (`none` for a non-200 status), `patchOk` whether the PATCH would
succeed.  Returns the success flag and the mutating calls issued;
`custom_fields.index(latest_field)` is the first index holding an element
equal to the selected one. -/
def update_ticket_crewhu_field (dryRun patchOk : Bool)
    (getResp : Option (List CWField)) (link : List Char) : Bool × List PatchCall :=
  match getResp with
  | none => (false, [])
  | some fields =>
    if fields.isEmpty then (false, [])
    else
      match selectedCrewhuField fields with
      | none => (false, [])
      | some latest =>
        let idx := fields.findIdx (fun g => decide (g = latest))
        if dryRun then (true, [])
        else if patchOk then (true, [⟨idx, link⟩])
        else (false, [⟨idx, link⟩])

/-! ## GET&POST_Links.py main loop: per-ticket tally -/

structure LinkTally where
  processed : Nat
  missing_link : Nat
  errors : Nat
deriving DecidableEq, Repr

def linksStep (dryRun patchOk : Bool) (notifs : List Notif)
    (getRespOf : List Char → Option (List CWField))
    (acc : LinkTally × List PatchCall) (tn : List Char) : LinkTally × List PatchCall :=
  match get_survey_link_for_ticket tn notifs with
  | none => ({ acc.1 with missing_link := acc.1.missing_link + 1 }, acc.2)
  | some link =>
    let r := update_ticket_crewhu_field dryRun patchOk (getRespOf tn) link
    if r.1 then ({ acc.1 with processed := acc.1.processed + 1 }, acc.2 ++ r.2)
    else ({ acc.1 with errors := acc.1.errors + 1 }, acc.2 ++ r.2)

def runLinksBatch (dryRun patchOk : Bool) (getRespOf : List Char → Option (List CWField))
    (tickets : List (List Char)) (notifs : List Notif) : LinkTally × List PatchCall :=
  tickets.foldl (linksStep dryRun patchOk notifs getRespOf) (⟨0, 0, 0⟩, [])

/-! ## POST_Ratings.py: the rating write path -/

def RATING_MAP : List (List Char × List Char) :=
  [ ("AWESOME".data, "Positive".data)
  , ("POSITIVE".data, "Positive".data)
  , ("NEGATIVE".data, "Negative".data) ]

def ratingMapLookup (k : List Char) : Option (List Char) :=
  (RATING_MAP.find? (fun p => decide (p.1 = k))).map (·.2)

structure RatingRow where
  ticket : List Char
  rating : List Char

/-- The per-row checks of `main` (lines 116-136): ticket id cleanup
(split at a period only when one is present), digit gate, then the
RATING_MAP lookup on the uppercased label.  `none` is a skip. -/
def classifyRow (r : RatingRow) : Option (List Char × List Char) :=
  let t0 := stripWs r.ticket
  let tid := if decide ('.' ∈ t0) then takeBeforeDot t0 else t0
  if tid.isEmpty || !tid.all Char.isDigit then none
  else
    match ratingMapLookup (upperL (stripWs r.rating)) with
    | none => none
    | some v => some (tid, v)

structure RatingCounts where
  updated : Nat
  skipped : Nat
  errors : Nat
deriving DecidableEq, Repr

structure RatingCall where
  ticket : List Char
  value : List Char
deriving DecidableEq, Repr

/-- One loop iteration: dry run reports success without a remote call;
a real run issues the PATCH and classifies by the backend's answer. -/
def ratingsStep (dryRun : Bool) (backend : List Char → List Char → Bool)
    (acc : RatingCounts × List RatingCall) (r : RatingRow) : RatingCounts × List RatingCall :=
  match classifyRow r with
  | none => ({ acc.1 with skipped := acc.1.skipped + 1 }, acc.2)
  | some (tid, v) =>
    if dryRun then ({ acc.1 with updated := acc.1.updated + 1 }, acc.2)
    else if backend tid v then ({ acc.1 with updated := acc.1.updated + 1 }, acc.2 ++ [⟨tid, v⟩])
    else ({ acc.1 with errors := acc.1.errors + 1 }, acc.2 ++ [⟨tid, v⟩])

def run_post_ratings (dryRun : Bool) (backend : List Char → List Char → Bool)
    (rows : List RatingRow) : RatingCounts × List RatingCall :=
  rows.foldl (ratingsStep dryRun backend) (⟨0, 0, 0⟩, [])

/-- The always-successful mock backend of the dry-run comparison. -/
def allOkBackend : List Char → List Char → Bool := fun _ _ => true

/-! ## POST_Notes_Internal.py: note text and automation-note recognition -/

/-- The note body built by post_note from a parsed entry
(`f"{summary}\n\nCustomer feedback:\n{feedback}"`, after main's
`.strip()` on both parts). -/
def post_note_text (r : SurveyRecord) : List Char :=
  stripWs r.summary ++ "\n\nCustomer feedback:\n".data ++ stripWs r.customer_feedback

/-- The content-based recognition used by delete_automated_notes:
`"just gave a" in text and "Customer feedback:" in text`. -/
def isAutomationNote (text : List Char) : Bool :=
  containsSub text "just gave a".data && containsSub text "Customer feedback:".data

/-- The notes the delete phase removes from a fetched note list
(assuming each DELETE succeeds). -/
def delete_automated_notes (notes : List (Nat × List Char)) : List (Nat × List Char) :=
  notes.filter (fun p => isAutomationNote p.2)

/-! ## A claim-side reading of the survey-link shape (claim C5)

The claim describes the link as an occurrence of the fixed URL prefix
followed by at least one character outside whitespace and the
quote/angle-bracket set; this is stated independently of `findLinkFrom`
and proved equivalent to it below. -/

def tailsL : List Char → List (List Char)
  | [] => [[]]
  | c :: t => (c :: t) :: tailsL t

def specHasLink (s : List Char) : Bool :=
  (tailsL s).any fun t =>
    startsWithL SURVEY_LIT t && linkCharB ((t.drop SURVEY_LIT.length).headD ' ')

/-! ## Concrete inputs used by the claim theorems -/

def c1Email : Email :=
  { Subject := "New Rating".data
  , FullBody := ("Jane from Acme gave a Positive rating to Bob for Speed on ticket# 42"
      ++ " (Fixed printer).\nCustomer feedback: \"Great job\"").data }

def c1Record : SurveyRecord :=
  { ticket_number := 42
  , summary := ("Jane from Acme just gave a Positive rating to Bob for Speed on ticket# 42"
      ++ " (Fixed printer).").data
  , customer_feedback := "Great job".data }

def c2WEmail1 : Email :=
  { Subject := "rating".data
  , FullBody := "Ann from Box gave a Negative rating to Cy for Care on ticket# 7 (Slow VPN).".data }

def c2WRecord : SurveyRecord :=
  { ticket_number := 7
  , summary := "Ann from Box just gave a Negative rating to Cy for Care on ticket# 7 (Slow VPN).".data
  , customer_feedback := "No feedback provided.".data }

def c2WEmail2 : Email := { Subject := "Hello".data, FullBody := "no survey here".data }

def c4FieldA : CWField := ⟨"Latest Crewhu Survey".data, "".data⟩

def c4FieldB : CWField := ⟨"Old CREWHU link".data, "x".data⟩

def c4FieldC : CWField := ⟨"Priority".data, "".data⟩

def c4Notif : Notif :=
  ⟨"ticket# 42 link https://web.crewhu.com/#/managesurvey/form/x1. end".data⟩

/-- Mock backend whose ticket carries no crewhu-related custom field. -/
def c4NoCrewhuBackend : List Char → Option (List CWField) := fun _ => some [c4FieldC]

def c5Notif : Notif :=
  ⟨"Survey for ticket# 500: https://web.crewhu.com/#/managesurvey/form/abc123>.".data⟩

def c5NoLinkNotif : Notif := ⟨"about ticket# 9 there is no survey url".data⟩

def c6RowA : Row := [("Ticket#".data, "497225.0".data)]

def c6RowB : Row := [("Ticket#".data, "abc".data)]

def c6RowC : Row := [("Ticket#".data, "12.34.56".data)]

def c6Row007 : Row := [("Ticket#".data, "007".data)]

def c6Row7 : Row := [("Ticket#".data, "7".data)]

def c7Row : RatingRow := ⟨"42".data, "GOOD".data⟩

def c8Email : Email :=
  { Subject := "New Rating".data
  , FullBody := ("Jane from Acme gave a Positive Rating for Speed on ticket# 42 (Fixed printer)"
      ++ " to your colleague Bob.").data }

/-- What the source extractor actually returns on `c8Email`: the employee
capture of the trailing lazy group is empty, so the summary holds
"rating to  for". -/
def c8Record : SurveyRecord :=
  { ticket_number := 42
  , summary := ("Jane from Acme just gave a Positive rating to  for Speed on ticket# 42"
      ++ " (Fixed printer).").data
  , customer_feedback := "No feedback provided.".data }

def c9Email : Email :=
  { Subject := "New Rating".data
  , FullBody := "Jane  from Acme gave a Positive rating to Bob Jr.. for Speed on ticket# 42 (Toner).".data }

/-- The record the extractor produces on `c9Email`: all captured fields
trimmed and every trailing period of the employee capture removed. -/
def c9Record : SurveyRecord :=
  { ticket_number := 42
  , summary := "Jane from Acme just gave a Positive rating to Bob Jr for Speed on ticket# 42 (Toner).".data
  , customer_feedback := "No feedback provided.".data }

def c10Email : Email :=
  { Subject := "Rating!".data
  , FullBody := ("Di from Ember gave a Positive rating to Ed for Speed on ticket# 9 (Email)."
      ++ "\nCustomer feedback: \"nice\"").data }

def c10Record : SurveyRecord :=
  { ticket_number := 9
  , summary := "Di from Ember just gave a Positive rating to Ed for Speed on ticket# 9 (Email).".data
  , customer_feedback := "nice".data }

/-! ## Substring lemmas -/

theorem startsWith_append_self (u B : List Char) : startsWithL u (u ++ B) = true := by
  induction u with
  | nil => rfl
  | cons p pt ih => simp [startsWithL, ih]

theorem contains_nil_pat (s : List Char) : containsSub s [] = true := by
  induction s with
  | nil => rfl
  | cons c t ih => simp [containsSub, startsWithL]

theorem contains_self_append (u B : List Char) : containsSub (u ++ B) u = true := by
  cases u with
  | nil => simpa using contains_nil_pat B
  | cons c t =>
    simp only [List.cons_append, containsSub, Bool.or_eq_true]
    exact Or.inl (startsWith_append_self (c :: t) B)

theorem contains_append_mid (A u B : List Char) : containsSub (A ++ u ++ B) u = true := by
  induction A with
  | nil => simpa using contains_self_append u B
  | cons a A ih =>
    simp only [List.cons_append, containsSub, Bool.or_eq_true]
    exact Or.inr (by simpa [List.append_assoc] using ih)

theorem startsWith_weaken (u s y : List Char) (h : startsWithL u s = true) :
    startsWithL u (s ++ y) = true := by
  induction u generalizing s with
  | nil => rfl
  | cons p pt ih =>
    cases s with
    | nil => simp [startsWithL] at h
    | cons c t =>
      simp only [startsWithL, Bool.and_eq_true] at h ⊢
      exact ⟨h.1, ih t h.2⟩

theorem contains_append_right (s y u : List Char) (h : containsSub s u = true) :
    containsSub (s ++ y) u = true := by
  induction s with
  | nil =>
    have hu : u = [] := by
      cases u with
      | nil => rfl
      | cons c t => simp [containsSub, startsWithL] at h
    subst hu
    simpa using contains_nil_pat y
  | cons c t ih =>
    simp only [containsSub, Bool.or_eq_true] at h
    rcases h with h | h
    · simp only [List.cons_append, containsSub, Bool.or_eq_true]
      exact Or.inl (startsWith_weaken u (c :: t) y h)
    · simp only [List.cons_append, containsSub, Bool.or_eq_true]
      exact Or.inr (ih h)

theorem contains_dropWhile (p : Char → Bool) (u₀ : Char) (u' s : List Char)
    (hp : p u₀ = false) (h : containsSub s (u₀ :: u') = true) :
    containsSub (s.dropWhile p) (u₀ :: u') = true := by
  induction s with
  | nil => simp [containsSub, startsWithL] at h
  | cons c t ih =>
    by_cases hc : p c = true
    · have hne : (u₀ == c) = false := by
        apply beq_eq_false_iff_ne.mpr
        intro he
        subst he
        rw [hc] at hp
        exact Bool.noConfusion hp
      simp only [containsSub, startsWithL, hne, Bool.false_and, Bool.false_or] at h
      rw [List.dropWhile_cons_of_pos hc]
      exact ih h
    · rw [List.dropWhile_cons_of_neg (by simpa using hc)]
      exact h

theorem rstripBy_append_nonp (p : Char → Bool) (x : List Char) (d : Char)
    (hd : p d = false) : rstripBy p (x ++ [d]) = x ++ [d] := by
  simp [rstripBy, List.dropWhile_cons_of_neg, hd]

/-! ## Survey-index lemmas (dict semantics of reformatJSON.py main) -/

theorem lookup_insertOrReplace (k : Nat) (v : SurveyRecord) (m : List (Nat × SurveyRecord)) :
    lookupTicket k (insertOrReplace k v m) = some v := by
  induction m with
  | nil => simp [insertOrReplace, lookupTicket, List.find?]
  | cons p rest ih =>
    obtain ⟨k', v'⟩ := p
    by_cases h : k' = k
    · simp [insertOrReplace, h, lookupTicket, List.find?]
    · have hb : (k' == k) = false := by simpa using h
      simp only [insertOrReplace, hb, Bool.false_eq_true, if_false]
      simpa [lookupTicket, List.find?, hb] using ih

theorem keys_insertOrReplace_subset (k : Nat) (v : SurveyRecord)
    (m : List (Nat × SurveyRecord)) (x : Nat) (hx : x ∈ keysOf (insertOrReplace k v m)) :
    x ∈ keysOf m ∨ x = k := by
  induction m with
  | nil => simpa [insertOrReplace, keysOf] using hx
  | cons p rest ih =>
    obtain ⟨k', v'⟩ := p
    by_cases h : k' = k
    · simp only [insertOrReplace, h, beq_self_eq_true, if_true] at hx
      simp only [keysOf, List.map_cons, List.mem_cons] at hx ⊢
      rcases hx with hx | hx
      · exact Or.inr hx
      · exact Or.inl (Or.inr hx)
    · have hb : (k' == k) = false := by simpa using h
      simp only [insertOrReplace, hb, Bool.false_eq_true, if_false] at hx
      simp only [keysOf, List.map_cons, List.mem_cons] at hx ⊢
      rcases hx with hx | hx
      · exact Or.inl (Or.inl hx)
      · rcases ih hx with h' | h'
        · exact Or.inl (Or.inr h')
        · exact Or.inr h'

theorem nodup_insertOrReplace (k : Nat) (v : SurveyRecord)
    (m : List (Nat × SurveyRecord)) (hm : (keysOf m).Nodup) :
    (keysOf (insertOrReplace k v m)).Nodup := by
  induction m with
  | nil => simp [insertOrReplace, keysOf]
  | cons p rest ih =>
    obtain ⟨k', v'⟩ := p
    simp only [keysOf, List.map_cons, List.nodup_cons] at hm
    by_cases h : k' = k
    · subst h
      simp only [insertOrReplace, beq_self_eq_true, if_true, keysOf, List.map_cons,
        List.nodup_cons]
      exact hm
    · have hb : (k' == k) = false := by simpa using h
      simp only [insertOrReplace, hb, Bool.false_eq_true, if_false, keysOf, List.map_cons,
        List.nodup_cons]
      refine ⟨fun hx => ?_, ih hm.2⟩
      rcases keys_insertOrReplace_subset k v rest k' hx with h' | h'
      · exact hm.1 h'
      · exact h h'

theorem buildIndex_nodup_aux (es : List Email) (acc : List (Nat × SurveyRecord))
    (hacc : (keysOf acc).Nodup) : (keysOf (es.foldl indexStep acc)).Nodup := by
  induction es generalizing acc with
  | nil => simpa using hacc
  | cons e es ih =>
    simp only [List.foldl_cons]
    apply ih
    unfold indexStep
    cases h : extract_survey_from_email e with
    | none => exact hacc
    | some r => exact nodup_insertOrReplace r.ticket_number r acc hacc

/-! ## Claim theorems -/

/-- C1: on the "New Rating" notification whose body is the Review-shape
line for ticket 42 followed by the quoted feedback "Great job", the
extractor produces exactly the claimed record; in particular the summary
is rebuilt from the fixed template inserting the word "just". -/
theorem c1_review_example : extract_survey_from_email c1Email = some c1Record := by
  decide

/-- C2: the survey index is keyed by ticket number with no duplicate key;
appending a notification whose extraction succeeds overwrites the record
stored for that ticket (last-write-wins in input order), and appending a
notification whose extraction fails leaves the index unchanged. -/
theorem c2_last_write_wins (es : List Email) (e : Email) :
    (∀ r, extract_survey_from_email e = some r →
      lookupTicket r.ticket_number (buildIndex (es ++ [e])) = some r)
    ∧ (extract_survey_from_email e = none → buildIndex (es ++ [e]) = buildIndex es)
    ∧ (keysOf (buildIndex (es ++ [e]))).Nodup := by
  have happ : buildIndex (es ++ [e]) = indexStep (buildIndex es) e := by
    simp [buildIndex, List.foldl_append]
  refine ⟨fun r hr => ?_, fun h0 => ?_, ?_⟩
  · rw [happ]
    unfold indexStep
    rw [hr]
    exact lookup_insertOrReplace r.ticket_number r (buildIndex es)
  · rw [happ]
    unfold indexStep
    rw [h0]
  · exact buildIndex_nodup_aux (es ++ [e]) [] (by simp [keysOf])

/-- Witness for C2: a successful extraction lands at its ticket key, and a
non-matching notification leaves the index untouched. -/
theorem c2_last_write_wins_witness :
    lookupTicket 7 (buildIndex ([] ++ [c2WEmail1])) = some c2WRecord
    ∧ buildIndex ([c2WEmail1] ++ [c2WEmail2]) = buildIndex [c2WEmail1] := by
  have h1 := (c2_last_write_wins [] c2WEmail1).1 c2WRecord (by decide)
  have h2 := (c2_last_write_wins [c2WEmail1] c2WEmail2).2.1 (by decide)
  exact ⟨h1, h2⟩

theorem ratings_fold_equiv (rows : List RatingRow) (backend : List Char → List Char → Bool)
    (c : RatingCounts) (calls calls' : List RatingCall) :
    (List.foldl (ratingsStep true backend) (c, calls) rows).1
        = (List.foldl (ratingsStep false allOkBackend) (c, calls') rows).1
    ∧ (List.foldl (ratingsStep true backend) (c, calls) rows).2 = calls := by
  induction rows generalizing c calls calls' with
  | nil => exact ⟨rfl, rfl⟩
  | cons r rows ih =>
    simp only [List.foldl_cons]
    cases hc : classifyRow r with
    | none =>
      simpa [ratingsStep, hc] using
        ih { c with skipped := c.skipped + 1 } calls calls'
    | some tv =>
      obtain ⟨tid, v⟩ := tv
      simpa [ratingsStep, hc, allOkBackend] using
        ih { c with updated := c.updated + 1 } calls (calls' ++ [⟨tid, v⟩])

/-- C3: over any row batch, a dry run produces the same
updated/skipped/errors tally as a real run against a backend on which
every mutating call succeeds, and the dry run issues no mutating remote
call at all. -/
theorem c3_dry_run_equiv (backend : List Char → List Char → Bool) (rows : List RatingRow) :
    (run_post_ratings true backend rows).1 = (run_post_ratings false allOkBackend rows).1
    ∧ (run_post_ratings true backend rows).2 = [] := by
  unfold run_post_ratings
  exact ratings_fold_equiv rows backend ⟨0, 0, 0⟩ [] []

/-- C7: a row whose uppercased rating label is absent from RATING_MAP is
tallied as skipped — updated and errors are untouched and no remote call
is recorded — and the map sends "AWESOME" to "Positive" and "NEGATIVE" to
"Negative". -/
theorem c7_rating_map_skip :
    (∀ (r : RatingRow) (dryRun : Bool) (backend : List Char → List Char → Bool)
        (acc : RatingCounts × List RatingCall),
      ratingMapLookup (upperL (stripWs r.rating)) = none →
        (ratingsStep dryRun backend acc r).1.updated = acc.1.updated
        ∧ (ratingsStep dryRun backend acc r).1.skipped = acc.1.skipped + 1
        ∧ (ratingsStep dryRun backend acc r).1.errors = acc.1.errors
        ∧ (ratingsStep dryRun backend acc r).2 = acc.2)
    ∧ ratingMapLookup "AWESOME".data = some "Positive".data
    ∧ ratingMapLookup "NEGATIVE".data = some "Negative".data := by
  refine ⟨fun r dryRun backend acc hmap => ?_, by decide, by decide⟩
  have hclass : classifyRow r = none := by
    simp [classifyRow, hmap]
  simp [ratingsStep, hclass]

/-- Witness for C7: the unmapped label "GOOD" is skipped without a call. -/
theorem c7_rating_map_skip_witness :
    (ratingsStep false allOkBackend (⟨0, 0, 0⟩, []) c7Row).1.updated = (⟨0, 0, 0⟩ : RatingCounts).updated
    ∧ (ratingsStep false allOkBackend (⟨0, 0, 0⟩, []) c7Row).1.skipped = (⟨0, 0, 0⟩ : RatingCounts).skipped + 1
    ∧ (ratingsStep false allOkBackend (⟨0, 0, 0⟩, []) c7Row).1.errors = (⟨0, 0, 0⟩ : RatingCounts).errors
    ∧ (ratingsStep false allOkBackend (⟨0, 0, 0⟩, []) c7Row).2 = ([] : List RatingCall) :=
  c7_rating_map_skip.1 c7Row false allOkBackend (⟨0, 0, 0⟩, []) (by decide)

theorem selected_last (fields : List CWField) :
    ∀ f, selectedCrewhuField fields = some f →
      isCrewhuCandidate f = true
      ∧ ∃ pre post, fields = pre ++ f :: post ∧ ∀ g ∈ post, isCrewhuCandidate g = false := by
  induction fields with
  | nil => intro f h; simp [selectedCrewhuField] at h
  | cons a t ih =>
    intro f h
    by_cases ha : isCrewhuCandidate a = true
    · rw [selectedCrewhuField, List.filter_cons_of_pos ha] at h
      cases hft : t.filter isCrewhuCandidate with
      | nil =>
        rw [hft] at h
        simp only [List.getLast?_singleton, Option.some.injEq] at h
        subst h
        refine ⟨ha, [], t, rfl, fun g hg => ?_⟩
        have := List.filter_eq_nil_iff.mp hft g hg
        simpa using this
      | cons b bs =>
        rw [hft, List.getLast?_cons_cons] at h
        have hsel : selectedCrewhuField t = some f := by
          rw [selectedCrewhuField, hft]
          exact h
        obtain ⟨hf, pre, post, hdec, hpost⟩ := ih f hsel
        exact ⟨hf, a :: pre, post, by rw [hdec, List.cons_append], hpost⟩
    · rw [selectedCrewhuField, List.filter_cons_of_neg (by simpa using ha)] at h
      obtain ⟨hf, pre, post, hdec, hpost⟩ := ih f h
      exact ⟨hf, a :: pre, post, by rw [hdec, List.cons_append], hpost⟩

/-- C4 counterexample: a ticket whose notification yields a link but whose
customFields hold nothing crewhu-related is tallied by the batch as an
error, not as a skip — the only skip-class counter of this flow
(missing_link) stays 0 — although indeed no write is attempted. -/
theorem c4_no_field_error_cex :
    runLinksBatch false true c4NoCrewhuBackend ["42".data] [c4Notif]
      = (⟨0, 0, 1⟩, []) := by
  decide

/-- C4 amended: a field qualifies exactly when its caption (stripped,
lowercased) is "latest crewhu survey" or contains "crewhu"
case-insensitively; the engine selects the last qualifying field of the
customFields sequence; with no qualifying field the update attempts no
write and reports failure, which the batch loop counts as an error. -/
theorem c4_field_select_amended :
    (∀ f : CWField, isCrewhuCandidate f = true ↔
      (lowerL (stripWs f.caption) = "latest crewhu survey".data
        ∨ containsSub (lowerL f.caption) "crewhu".data = true))
    ∧ (∀ fields f, selectedCrewhuField fields = some f →
        isCrewhuCandidate f = true
        ∧ ∃ pre post, fields = pre ++ f :: post ∧ ∀ g ∈ post, isCrewhuCandidate g = false)
    ∧ (∀ fields : List CWField, (∀ g ∈ fields, isCrewhuCandidate g = false) →
        ∀ dr pk link, update_ticket_crewhu_field dr pk (some fields) link = (false, []))
    ∧ (∀ (dr pk : Bool) (grf : List Char → Option (List CWField))
        (notifs : List Notif) (tn link : List Char),
        get_survey_link_for_ticket tn notifs = some link →
        (update_ticket_crewhu_field dr pk (grf tn) link).1 = false →
        runLinksBatch dr pk grf [tn] notifs
          = (⟨0, 0, 1⟩, (update_ticket_crewhu_field dr pk (grf tn) link).2)) := by
  refine ⟨fun f => ?_, fun fields f h => selected_last fields f h, fun fields h dr pk link => ?_,
    fun dr pk grf notifs tn link h1 h2 => ?_⟩
  · simp [isCrewhuCandidate, Bool.or_eq_true, decide_eq_true_eq]
  · have hfilter : fields.filter isCrewhuCandidate = [] :=
      List.filter_eq_nil_iff.mpr (fun g hg => by simp [h g hg])
    simp [update_ticket_crewhu_field, selectedCrewhuField, hfilter]
  · simp only [runLinksBatch, List.foldl_cons, List.foldl_nil, linksStep, h1]
    rw [h2]
    simp

/-- Witness for C4 amended: among [Priority, Latest Crewhu Survey,
Old CREWHU link] the selected field is the final crewhu-containing one,
not the earlier exact-caption match. -/
theorem c4_field_select_amended_witness :
    isCrewhuCandidate c4FieldB = true
    ∧ ∃ pre post, [c4FieldC, c4FieldA, c4FieldB] = pre ++ c4FieldB :: post
        ∧ ∀ g ∈ post, isCrewhuCandidate g = false :=
  c4_field_select_amended.2.1 [c4FieldC, c4FieldA, c4FieldB] c4FieldB (by decide)

theorem findLink_none_iff (s : List Char) :
    findLinkFrom s = none ↔ specHasLink s = false := by
  induction s with
  | nil =>
    constructor
    · intro _; decide
    · intro _; rfl
  | cons c t ih =>
    by_cases hpre : startsWithL SURVEY_LIT (c :: t) = true
    · by_cases htok : (((c :: t).drop SURVEY_LIT.length).takeWhile linkCharB).isEmpty = true
      · have hhead : linkCharB (((c :: t).drop SURVEY_LIT.length).headD ' ') = false := by
          cases hdrop : (c :: t).drop SURVEY_LIT.length with
          | nil => decide
          | cons d r =>
            rw [hdrop] at htok
            by_cases hd : linkCharB d = true
            · rw [List.takeWhile_cons_of_pos hd] at htok
              simp at htok
            · simpa [List.headD] using hd
        rw [findLinkFrom, if_pos hpre, if_pos htok]
        rw [specHasLink] at ih ⊢
        simp only [tailsL, List.any_cons, hpre, hhead, Bool.and_false, Bool.true_and,
          Bool.false_or]
        exact ih
      · constructor
        · intro habs
          rw [findLinkFrom, if_pos hpre, if_neg htok] at habs
          exact Option.noConfusion habs
        · intro habs
          have hhead : linkCharB (((c :: t).drop SURVEY_LIT.length).headD ' ') = true := by
            cases hdrop : (c :: t).drop SURVEY_LIT.length with
            | nil => rw [hdrop] at htok; simp at htok
            | cons d r =>
              rw [hdrop] at htok
              by_cases hd : linkCharB d = true
              · simpa [List.headD] using hd
              · rw [List.takeWhile_cons_of_neg (by simpa using hd)] at htok
                simp at htok
          rw [specHasLink] at habs
          simp only [tailsL, List.any_cons, hpre, hhead, Bool.and_self, Bool.true_and,
            Bool.true_or] at habs
          exact Bool.noConfusion habs
    · have hpre' : startsWithL SURVEY_LIT (c :: t) = false := by
        simpa using hpre
      rw [findLinkFrom, if_neg (by simp [hpre'])]
      rw [specHasLink] at ih ⊢
      simp only [tailsL, List.any_cons, hpre', Bool.false_and, Bool.false_or]
      exact ih

/-- C5: the resolver returns the claim's example link with its trailing
">." removed, and returns not-found whenever no notification containing
the marker "ticket# N" also contains an occurrence of the survey-link
shape (the fixed URL prefix followed by a run of characters outside
whitespace and the quote/angle-bracket set). -/
theorem c5_link_resolver :
    get_survey_link_for_ticket "500".data [c5Notif]
        = some "https://web.crewhu.com/#/managesurvey/form/abc123".data
    ∧ ∀ (tn : List Char) (notifs : List Notif),
        (∀ nb ∈ notifs, containsSub nb.FullBody (markerOf tn) = true →
          specHasLink nb.FullBody = false) →
        get_survey_link_for_ticket tn notifs = none := by
  constructor
  · decide
  · intro tn notifs h
    induction notifs with
    | nil => rfl
    | cons n rest ih =>
      have ih' := ih (fun nb hnb => h nb (List.mem_cons_of_mem n hnb))
      by_cases hm : containsSub n.FullBody (markerOf tn) = true
      · have hnone : findLinkFrom n.FullBody = none :=
          (findLink_none_iff n.FullBody).mpr (h n (List.mem_cons_self n rest) hm)
        rw [get_survey_link_for_ticket, if_pos hm, hnone]
        exact ih'
      · rw [get_survey_link_for_ticket, if_neg hm]
        exact ih'

/-- Witness for C5: a notification carrying the marker but no survey link
resolves to not-found. -/
theorem c5_link_resolver_witness :
    get_survey_link_for_ticket "9".data [c5NoLinkNotif] = none :=
  c5_link_resolver.2 "9".data [c5NoLinkNotif] (by decide)

theorem ticketSetStep_cases (acc : List (List Char)) (row : Row) :
    ticketSetStep acc row = acc
    ∨ ∃ v, ticketSetStep acc row = acc ++ [v]
        ∧ (!v.isEmpty && v.all Char.isDigit) = true ∧ v ∉ acc := by
  unfold ticketSetStep
  cases hk : firstKeyVal possible_ticket_keys row with
  | none => exact Or.inl rfl
  | some v0 =>
    dsimp only
    by_cases hc : (!(takeBeforeDot (stripWs v0)).isEmpty
        && (takeBeforeDot (stripWs v0)).all Char.isDigit
        && !(decide (takeBeforeDot (stripWs v0) ∈ acc))) = true
    · refine Or.inr ⟨takeBeforeDot (stripWs v0), by rw [if_pos hc], ?_, ?_⟩
      · simp only [Bool.and_eq_true] at hc
        exact Bool.and_eq_true_iff.mpr ⟨hc.1.1, hc.1.2⟩
      · simp only [Bool.and_eq_true, Bool.not_eq_true', decide_eq_false_iff_not] at hc
        exact hc.2
    · exact Or.inl (by rw [if_neg hc])

theorem collectTickets_aux (rows : List Row) (acc : List (List Char))
    (hgood : ∀ v ∈ acc, (!v.isEmpty && v.all Char.isDigit) = true) (hnd : acc.Nodup) :
    (∀ v ∈ rows.foldl ticketSetStep acc, (!v.isEmpty && v.all Char.isDigit) = true)
    ∧ (rows.foldl ticketSetStep acc).Nodup := by
  induction rows generalizing acc with
  | nil => exact ⟨hgood, hnd⟩
  | cons row rows ih =>
    simp only [List.foldl_cons]
    rcases ticketSetStep_cases acc row with hstep | ⟨v, hstep, hgv, hvnot⟩
    · rw [hstep]
      exact ih acc hgood hnd
    · rw [hstep]
      apply ih
      · intro w hw
        rcases List.mem_append.mp hw with hw | hw
        · exact hgood w hw
        · have hw' : w = v := by simpa using hw
          subst hw'
          exact hgv
      · rw [List.nodup_append_comm]
        exact List.nodup_cons.mpr ⟨hvnot, hnd⟩

/-- C6 counterexample: on rows "007" and "7" the loader keeps both digit
strings; they denote the same TicketId 7, so the output is not strictly
ascending numerically (and carries a numerically duplicate TicketId). -/
theorem c6_leading_zero_cex :
    load_ticket_numbers_from_csv [c6Row007, c6Row7] = ["007".data, "7".data]
    ∧ toNatL "007".data = toNatL "7".data
    ∧ ¬ (load_ticket_numbers_from_csv [c6Row007, c6Row7]).Pairwise keyLt := by
  refine ⟨by decide, by decide, ?_⟩
  intro h
  rw [(by decide : load_ticket_numbers_from_csv [c6Row007, c6Row7]
    = ["007".data, "7".data])] at h
  have := List.rel_of_pairwise_cons h (List.mem_singleton_self "7".data)
  simp [keyLt, toNatL] at this

/-- C6 amended: the loader trims each raw value, truncates at the first
period and keeps only all-digit remainders ("497225.0" gives 497225,
"abc" is dropped, "12.34.56" gives 12); the output holds no non-digit and
no duplicate string and is numerically non-decreasing — strict ascent can
fail only between distinct digit strings denoting the same number. -/
theorem c6_ticket_loader_amended :
    (load_ticket_numbers_from_csv [c6RowA] = ["497225".data]
      ∧ load_ticket_numbers_from_csv [c6RowB] = []
      ∧ load_ticket_numbers_from_csv [c6RowC] = ["12".data])
    ∧ (∀ rows v, v ∈ load_ticket_numbers_from_csv rows →
        v ≠ [] ∧ v.all Char.isDigit = true)
    ∧ (∀ rows, (load_ticket_numbers_from_csv rows).Nodup)
    ∧ (∀ rows, (load_ticket_numbers_from_csv rows).Pairwise keyLe) := by
  refine ⟨⟨by decide, by decide, by decide⟩, fun rows v hv => ?_, fun rows => ?_, fun rows => ?_⟩
  · have hmem : v ∈ collectTickets rows :=
      (List.perm_insertionSort keyLe (collectTickets rows)).mem_iff.mp hv
    have hg := (collectTickets_aux rows [] (by simp) List.nodup_nil).1 v hmem
    simp only [Bool.and_eq_true, Bool.not_eq_true'] at hg
    refine ⟨fun heq => ?_, hg.2⟩
    rw [heq] at hg
    simp at hg
  · exact ((List.perm_insertionSort keyLe (collectTickets rows)).nodup_iff).mpr
      (collectTickets_aux rows [] (by simp) List.nodup_nil).2
  · exact List.sorted_insertionSort keyLe (collectTickets rows)

/-- Witness for C6 amended: the surviving entry of row "12.34.56" is a
non-empty all-digit string. -/
theorem c6_ticket_loader_amended_witness :
    "12".data ≠ [] ∧ ("12".data).all Char.isDigit = true :=
  c6_ticket_loader_amended.2.1 [c6RowC] "12".data (by decide)

/-- C8: what reformatJSON.py actually does on a Woohoo-shape line — the
trailing lazy employee group captures the empty string, so the summary
holds "rating to  for" instead of the colleague name "Bob" that follows
"to your colleague " in the line. -/
theorem c8_woohoo_employee_empty : extract_survey_from_email c8Email = some c8Record := by
  decide

/-- C9 counterexample: for an employee capture "Bob Jr.." (two trailing
periods) the code's rstrip removes both, so the summary does not retain
one trailing period — "Bob Jr. for" never occurs in it. -/
theorem c9_double_period_cex :
    extract_survey_from_email c9Email = some c9Record
    ∧ containsSub c9Record.summary "Bob Jr. for".data = false := by
  constructor
  · decide
  · decide

/-- C9 amended: every captured field is trimmed (the doubled space before
"from" disappears) and all trailing periods are stripped from the
employee name — a capture ending in two periods retains none. -/
theorem c9_strip_periods_amended :
    extract_survey_from_email c9Email = some c9Record
    ∧ containsSub c9Record.summary "Bob Jr for".data = true := by
  constructor
  · decide
  · decide

theorem summary_template_auto (n : Nat) (c co ra em ca tid de fb : List Char) :
    isAutomationNote (post_note_text
      { ticket_number := n
      , summary := c ++ " from ".data ++ co ++ " just gave a ".data ++ ra
          ++ " rating to ".data ++ em ++ " for ".data ++ ca
          ++ " on ticket# ".data ++ tid ++ " (".data ++ de ++ ").".data
      , customer_feedback := fb }) = true := by
  set S : List Char := c ++ " from ".data ++ co ++ " just gave a ".data ++ ra
      ++ " rating to ".data ++ em ++ " for ".data ++ ca
      ++ " on ticket# ".data ++ tid ++ " (".data ++ de ++ ").".data with hS
  have hnote : post_note_text
      { ticket_number := n, summary := S, customer_feedback := fb }
      = stripWs S ++ "\n\nCustomer feedback:\n".data ++ stripWs fb := rfl
  have hcf : containsSub (stripWs S ++ "\n\nCustomer feedback:\n".data ++ stripWs fb)
      "Customer feedback:".data = true := by
    have hmid : stripWs S ++ "\n\nCustomer feedback:\n".data ++ stripWs fb
        = (stripWs S ++ "\n\n".data) ++ "Customer feedback:".data
            ++ ("\n".data ++ stripWs fb) := by
      simp [List.append_assoc]
    rw [hmid]
    exact contains_append_mid _ _ _
  have hdotS : S = (c ++ " from ".data ++ co ++ " just gave a ".data ++ ra
      ++ " rating to ".data ++ em ++ " for ".data ++ ca
      ++ " on ticket# ".data ++ tid ++ " (".data ++ de ++ [')']) ++ ['.'] := by
    rw [hS]
    simp [List.append_assoc]
  have hrstrip : rstripBy wsB S = S := by
    rw [hdotS]
    exact rstripBy_append_nonp wsB _ '.' (by decide)
  have hjS : containsSub S "just gave a".data = true := by
    have hdec : S = (c ++ " from ".data ++ co ++ [' ']) ++ "just gave a".data
        ++ ([' '] ++ ra ++ " rating to ".data ++ em ++ " for ".data ++ ca
            ++ " on ticket# ".data ++ tid ++ " (".data ++ de ++ ").".data) := by
      rw [hS]
      simp [List.append_assoc]
    rw [hdec]
    exact contains_append_mid _ _ _
  have hjstrip : containsSub (stripWs S) "just gave a".data = true := by
    have : stripWs S = S.dropWhile wsB := by rw [stripWs, hrstrip]
    rw [this]
    exact contains_dropWhile wsB 'j' "ust gave a".data S (by decide) hjS
  have hj : containsSub (stripWs S ++ "\n\nCustomer feedback:\n".data ++ stripWs fb)
      "just gave a".data = true := by
    rw [List.append_assoc]
    exact contains_append_right _ _ _ hjstrip
  rw [hnote]
  unfold isAutomationNote
  rw [hj, hcf]
  rfl

theorem extract_eq_some_shape (e : Email) (r : SurveyRecord)
    (h : extract_survey_from_email e = some r) :
    ∃ gd, r = buildRecord gd e.FullBody := by
  unfold extract_survey_from_email at h
  split at h
  · split at h
    · exact ⟨_, (Option.some.inj h).symm⟩
    · exact Option.noConfusion h
  · exact Option.noConfusion h

/-- C10: every record the extractor produces yields — through the note
template of the posting path — a note that satisfies the content-based
automation-note predicate, so a later run's delete phase selects it for
deletion from any fetched note list it appears in. -/
theorem c10_note_recognition (e : Email) (r : SurveyRecord)
    (h : extract_survey_from_email e = some r) :
    isAutomationNote (post_note_text r) = true
    ∧ ∀ (notes : List (Nat × List Char)) (nid : Nat),
        (nid, post_note_text r) ∈ notes →
        (nid, post_note_text r) ∈ delete_automated_notes notes := by
  obtain ⟨gd, rfl⟩ := extract_eq_some_shape e r h
  have hauto : isAutomationNote (post_note_text (buildRecord gd e.FullBody)) = true := by
    unfold buildRecord
    exact summary_template_auto _ _ _ _ _ _ _ _ _
  refine ⟨hauto, fun notes nid hmem => ?_⟩
  unfold delete_automated_notes
  exact List.mem_filter.mpr ⟨hmem, hauto⟩

/-- Witness for C10: the record extracted from a concrete notification is
recognised by the automation-note predicate. -/
theorem c10_note_recognition_witness :
    isAutomationNote (post_note_text c10Record) = true :=
  (c10_note_recognition c10Email c10Record (by decide)).1

end Crewhu
